import Mathlib

/-!
Verification of the spectrik reference-resolution and reconciliation engine.

This file gives a shallow embedding, in Lean 4, of the core of the spectrik
repository and proves the behavioural properties stated about it:

* `resolve.py` — the interpolation resolver (`Resolver._resolve_value`,
  `Resolver._resolve_ref`, `_INTERP_PATTERN`), embedded over an inductive
  `Value` type standing for the Python values a context can hold;
* `specop.py` — the three reconciliation strategies `Present` / `Ensure` /
  `Absent`, embedded as trace-producing functions so that calls to the
  wrapped specification methods become observable events;
* `workspace.py` — `BlueprintRef.resolve` with its shared `resolving` set for
  circular-include detection, `_parse_ops` / `_build_project`, and
  `Workspace.add`.

Machine integers do not occur in the modelled code; strings are Lean
`String`s, Python dicts are association lists preserving insertion order, and
raised exceptions are `Except` errors.
-/

/-- Left brace character, written numerically. -/
def lbrace : Char := Char.ofNat 123

/-- Right brace character, written numerically. -/
def rbrace : Char := Char.ofNat 125

/-- Single-quote character, written numerically. -/
def squote : Char := Char.ofNat 39

/-- Shallow model of the Python values the resolver can see: strings,
integers, booleans, `None`, lists, dicts (association lists preserving
insertion order), plain objects exposing attributes, and zero-argument
callables modelled by the value they return.  Dicts carry key/value pairs;
`obj` carries the attribute mapping used by the `getattr` fallback
in `Resolver._resolve_ref`. -/
inductive Value where
  | str (s : String)
  | int (n : Int)
  | bool (b : Bool)
  | none
  | list (vs : List Value)
  | dict (kvs : List (String × Value))
  | obj (attrs : List (String × Value))
  | callable (ret : Value)

/-- Association-list lookup, first binding wins — the behaviour of a Python
dict whose keys are unique, and of our dict model in general. -/
def alistLookup {α : Type} : List (String × α) → String → Option α
  | [], _ => Option.none
  | (k, v) :: rest, key => if k = key then some v else alistLookup rest key

mutual

/-- Python `str()` of a value, as used by `_resolve_value` when a resolved
reference is embedded in a larger string.  Scalars follow Python exactly;
containers stringify their elements with `repr`, which for strings adds
single quotes (escaping of special characters inside strings is not
modelled); objects and functions print as an opaque marker standing for
the address-bearing default `repr`. -/
def pyStr : Value → String
  | .str s => s
  | .int n => toString n
  | .bool b => if b then "True" else "False"
  | .none => "None"
  | .list vs => "[" ++ pyReprJoin vs ++ "]"
  | .dict kvs => String.singleton lbrace ++ pyReprPairs kvs ++ String.singleton rbrace
  | .obj _ => "<object>"
  | .callable _ => "<callable>"

/-- Python `repr()` of a value: differs from `str` only on strings, which
gain surrounding single quotes. -/
def pyRepr : Value → String
  | .str s => String.singleton squote ++ s ++ String.singleton squote
  | .int n => toString n
  | .bool b => if b then "True" else "False"
  | .none => "None"
  | .list vs => "[" ++ pyReprJoin vs ++ "]"
  | .dict kvs => String.singleton lbrace ++ pyReprPairs kvs ++ String.singleton rbrace
  | .obj _ => "<object>"
  | .callable _ => "<callable>"

/-- Comma-joined `repr`s of list elements, as in Python `str([...])`. -/
def pyReprJoin : List Value → String
  | [] => ""
  | [v] => pyRepr v
  | v :: rest => pyRepr v ++ ", " ++ pyReprJoin rest

/-- Comma-joined `repr(k): repr(v)` pairs, as in Python `str({...})`. -/
def pyReprPairs : List (String × Value) → String
  | [] => ""
  | [(k, v)] => pyRepr (.str k) ++ ": " ++ pyRepr v
  | (k, v) :: rest => pyRepr (.str k) ++ ": " ++ pyRepr v ++ ", " ++ pyReprPairs rest

end

/-- Error raised by the resolver: the undefined-variable `ValueError` of
`Resolver._resolve_ref`; the constructor argument is the full dotted
path that failed to resolve, exactly the text interpolated into the
message of the source. -/
inductive VarErr where
  | undefinedVariable (ref : String)
  deriving DecidableEq, Repr

/-- Mapping-key lookup `current[part]`: succeeds only on dicts holding the
key; on every other modelled value Python raises `KeyError` or `TypeError`,
which `_resolve_ref` catches before falling back to attribute lookup. -/
def getItem (v : Value) (part : String) : Option Value :=
  match v with
  | .dict kvs => alistLookup kvs part
  | _ => Option.none

/-- Attribute lookup `getattr(current, part)`: succeeds only on objects
exposing the attribute; built-in method namespaces of dicts, lists and
scalars are not modelled. -/
def getAttr (v : Value) (part : String) : Option Value :=
  match v with
  | .obj attrs => alistLookup attrs part
  | _ => Option.none

/-- The segment walk of `Resolver._resolve_ref`: for each dotted segment try
`current[part]` first and `getattr(current, part)` on failure; when neither
succeeds, raise naming the full dotted path `ref`. -/
def refWalk (ref : String) : List String → Value → Except VarErr Value
  | [], v => .ok v
  | part :: rest, v =>
    match getItem v part with
    | some w => refWalk ref rest w
    | Option.none =>
      match getAttr v part with
      | some w => refWalk ref rest w
      | Option.none => .error (.undefinedVariable ref)

/-- Final-step callable invocation of `_resolve_ref`: a callable result is
invoked with no arguments (class objects, exempted by the `isinstance`
check in the source, are not part of the value model). -/
def invokeIfCallable : Value → Value
  | .callable r => r
  | v => v

/-- Python split of the reference on the dot character, over the character
list: dots separate segments, and the empty string splits into one empty
segment. -/
def splitDots : List Char → List (List Char)
  | [] => [[]]
  | c :: rest =>
    if c = '.' then [] :: splitDots rest
    else
      match splitDots rest with
      | [] => [[c]]
      | p :: ps => (c :: p) :: ps

/-- Embedding of `Resolver._resolve_ref`: split the reference on dots, walk
the context, then invoke a trailing callable. -/
def resolveRef (context : List (String × Value)) (ref : String) : Except VarErr Value :=
  match refWalk ref ((splitDots ref.data).map String.mk) (.dict context) with
  | .error e => .error e
  | .ok v => .ok (invokeIfCallable v)

/-- Python `str.strip()` restricted to whitespace: drop whitespace from both
ends. -/
def pyStrip (s : String) : String :=
  String.mk (((s.data.dropWhile Char.isWhitespace).reverse.dropWhile Char.isWhitespace).reverse)

/-- Does the string contain the two-character interpolation opener, as in the
fast-path test of `_resolve_value`? -/
def startsInterp : List Char → Bool
  | c1 :: c2 :: _ => c1 == '$' && c2 == lbrace
  | _ => false

/-- Substring test for the interpolation opener anywhere in the string. -/
def containsInterp : List Char → Bool
  | [] => false
  | c :: rest => startsInterp (c :: rest) || containsInterp rest

/-- Full-string match of the single-token pattern of the source (one dollar, an opening brace, one or more non-brace characters, one closing brace): the whole
string is a single interpolation token and the captured group is returned.
The character class excludes both braces, so the greedy run admits no
backtracking: the match succeeds exactly when everything after the opener
up to the final character is a non-empty brace-free run closed by one
right brace. -/
def fullInterpMatch (cs : List Char) : Option String :=
  match cs with
  | c1 :: c2 :: rest =>
    if c1 == '$' && c2 == lbrace then
      let inner := rest.takeWhile (fun c => c != lbrace && c != rbrace)
      match rest.dropWhile (fun c => c != lbrace && c != rbrace) with
      | [c3] => if inner.length > 0 && c3 == rbrace then some (String.mk inner) else Option.none
      | _ => Option.none
    else Option.none
  | _ => Option.none

/-- Does `_INTERP_PATTERN`s first alternative `\$\$\{` match at this
position? -/
def escapeAt : List Char → Bool
  | c1 :: c2 :: c3 :: _ => c1 == '$' && c2 == '$' && c3 == lbrace
  | _ => false

/-- Does the second alternative `(\$\{([^{}]+)\})` match at this position?
Returns the captured reference text and the characters after the match. -/
def tokenAt : List Char → Option (String × List Char)
  | c1 :: c2 :: rest =>
    if c1 == '$' && c2 == lbrace then
      let inner := rest.takeWhile (fun c => c != lbrace && c != rbrace)
      match rest.dropWhile (fun c => c != lbrace && c != rbrace) with
      | c3 :: after =>
        if inner.length > 0 && c3 == rbrace then some (String.mk inner, after) else Option.none
      | [] => Option.none
    else Option.none
  | _ => Option.none

/-- The scan of `_INTERP_PATTERN.sub(_replace, value)`: left to right,
non-overlapping, first alternative preferred, one character emitted and
skipped when neither alternative matches.  A matched escape `$$\x7b` emits
the literal `$\x7b`; a matched token resolves its stripped reference and
emits the `str()` of the result, propagating resolver errors.  The fuel
argument only serves the termination checking of Lean; every step consumes at
least one character, so `cs.length` fuel is always enough. -/
def subInterp (rf : String → Except VarErr Value) : Nat → List Char → Except VarErr (List Char)
  | _, [] => .ok []
  | 0, cs => .ok cs
  | n + 1, c1 :: rest =>
    if escapeAt (c1 :: rest) then
      (subInterp rf n (rest.drop 2)).map (fun tail => '$' :: lbrace :: tail)
    else
      match tokenAt (c1 :: rest) with
      | some (ref, after) =>
        match rf (pyStrip ref) with
        | .error e => .error e
        | .ok v => (subInterp rf n after).map (fun tail => (pyStr v).data ++ tail)
      | Option.none => (subInterp rf n rest).map (fun tail => c1 :: tail)

/-- Body of `Resolver._resolve_value` over the character list of the input:
return non-interpolated strings unchanged; return the typed resolved
value when the whole string is one token; otherwise substitute every
token by its stringified value. -/
def resolveValueCore (rf : String → Except VarErr Value) (cs : List Char) : Except VarErr Value :=
  if containsInterp cs then
    match fullInterpMatch cs with
    | some ref => rf (pyStrip ref)
    | Option.none =>
      match subInterp rf cs.length cs with
      | .error e => .error e
      | .ok out => .ok (.str (String.mk out))
  else .ok (.str (String.mk cs))

/-- Embedding of `Resolver._resolve_value`, parameterised by the reference
resolver. -/
def resolveValueF (rf : String → Except VarErr Value) (value : String) : Except VarErr Value :=
  resolveValueCore rf value.data

/-- `Resolver._resolve_value` against a concrete context dict. -/
def resolveValue (context : List (String × Value)) (value : String) : Except VarErr Value :=
  resolveValueF (resolveRef context) value

/-- Execution context of `context.py`: the build target and the dry-run
flag, generic over the project type exactly as `Context[P]`. -/
structure Ctx (P : Type) where
  target : P
  dry_run : Bool

/-- Observable events of a strategy invocation: each call into the wrapped
specification is recorded in order.  Checks are the decision methods
`exists` and `equals`; `applyCall` and `removeCall` are the mutating
methods. -/
inductive Event where
  | existsCheck
  | equalsCheck
  | applyCall
  | removeCall
  deriving DecidableEq, BEq, Repr

/-- A concrete `Specification` instance as the strategies see it: its four
methods, each a function of the context that either returns or raises
(modelled with `Except String`).  The source default of `exists`
delegating to `equals` is one possible instantiation. -/
structure SpecModel (P : Type) where
  equalsFn : Ctx P → Except String Bool
  existsFn : Ctx P → Except String Bool
  applyFn : Ctx P → Except String Unit
  removeFn : Ctx P → Except String Unit

/-- Embedding of `Present.__call__`: skip when `exists` is true, log only
under dry-run, otherwise call `apply`.  The result is the ordered list of
specification-method calls made, paired with the exception that escaped,
if any. -/
def presentRun {P : Type} (s : SpecModel P) (ctx : Ctx P) : List Event × Option String :=
  match s.existsFn ctx with
  | .error e => ([.existsCheck], some e)
  | .ok true => ([.existsCheck], Option.none)
  | .ok false =>
    if ctx.dry_run then ([.existsCheck], Option.none)
    else
      match s.applyFn ctx with
      | .error e => ([.existsCheck, .applyCall], some e)
      | .ok _ => ([.existsCheck, .applyCall], Option.none)

/-- Embedding of `Ensure.__call__`: as `Present` but deciding on `equals`. -/
def ensureRun {P : Type} (s : SpecModel P) (ctx : Ctx P) : List Event × Option String :=
  match s.equalsFn ctx with
  | .error e => ([.equalsCheck], some e)
  | .ok true => ([.equalsCheck], Option.none)
  | .ok false =>
    if ctx.dry_run then ([.equalsCheck], Option.none)
    else
      match s.applyFn ctx with
      | .error e => ([.equalsCheck, .applyCall], some e)
      | .ok _ => ([.equalsCheck, .applyCall], Option.none)

/-- Embedding of `Absent.__call__`: call `remove` when `exists` is true and
dry-run is off; otherwise only the check runs. -/
def absentRun {P : Type} (s : SpecModel P) (ctx : Ctx P) : List Event × Option String :=
  match s.existsFn ctx with
  | .error e => ([.existsCheck], some e)
  | .ok true =>
    if ctx.dry_run then ([.existsCheck], Option.none)
    else
      match s.removeFn ctx with
      | .error e => ([.existsCheck, .removeCall], some e)
      | .ok _ => ([.existsCheck, .removeCall], Option.none)
  | .ok false => ([.existsCheck], Option.none)

/-- Bool-valued discriminator: did the check return `False` without
raising? -/
def isOkFalse : Except String Bool → Bool
  | .ok false => true
  | _ => false

/-- Bool-valued discriminator: did the check return `True` without
raising? -/
def isOkTrue : Except String Bool → Bool
  | .ok true => true
  | _ => false

/-- The exception escaping a decision check, if any. -/
def errPart : Except String Bool → Option String
  | .error e => some e
  | .ok _ => Option.none

/-- Is the event one of the two decision checks? -/
def isCheckEv : Event → Bool
  | .existsCheck => true
  | .equalsCheck => true
  | _ => false

/-- The three reconciliation strategies of `_STRATEGY_MAP`. -/
inductive StrategyKind where
  | present
  | ensure
  | absent
  deriving DecidableEq, BEq, Repr

/-- Lookup in `_STRATEGY_MAP`; `Option.none` models the `KeyError` a
strategy tag outside the map would raise. -/
def strategyMap : String → Option StrategyKind
  | "present" => some .present
  | "ensure" => some .ensure
  | "absent" => some .absent
  | _ => Option.none

/-- Errors raised during workspace resolution, one constructor per raise
site of `workspace.py`; `fuelExhausted` is a modelling artifact of the
explicit recursion depth and is unreachable for sufficient fuel. -/
inductive RErr where
  | unknownSpec (name : String)
  | strategyKeyErr (strategy : String)
  | circularInclude (name : String)
  | includeKeyErr (name : String)
  | unknownBlueprint (projectName : String) (blueprintName : String)
  | fuelExhausted
  deriving DecidableEq, Repr

/-- Unresolved `OperationRef`: spec type name, strategy tag, attribute
mapping, optional label. -/
structure OperationRefData where
  name : String
  strategy : String
  attrs : List (String × Value)
  label : Option String := Option.none

/-- A resolved operation — a strategy wrapping a spec instance, the latter
modelled by the registered type name it was instantiated from together
with the constructor attributes. -/
structure SpecOpData where
  strategy : StrategyKind
  specName : String
  attrs : List (String × Value)

/-- Unresolved `BlueprintRef`: name, ordered include names, own operation
refs, description. -/
structure BlueprintRefData where
  name : String
  includes : List String
  ops : List OperationRefData
  description : String := ""

/-- Resolved `Blueprint`: name plus the ordered, already-instantiated
operation list. -/
structure BlueprintData where
  name : String
  ops : List SpecOpData

/-- Embedding of `OperationRef.resolve`: unknown spec types fail first, then
the spec is instantiated and wrapped in the class `_STRATEGY_MAP` gives
for the strategy tag. -/
def operationRefResolve (sreg : List String) (o : OperationRefData) : Except RErr SpecOpData :=
  if sreg.contains o.name then
    match strategyMap o.strategy with
    | some k => .ok ⟨k, o.name, o.attrs⟩
    | Option.none => .error (.strategyKeyErr o.strategy)
  else .error (.unknownSpec o.name)

/-- Resolve the own operation refs of a blueprint in declared order,
propagating the first failure, as the generator expression in
`BlueprintRef.resolve` does. -/
def resolveOps (sreg : List String) : List OperationRefData → Except RErr (List SpecOpData)
  | [] => .ok []
  | o :: rest =>
    match operationRefResolve sreg o with
    | .error e => .error e
    | .ok op =>
      match resolveOps sreg rest with
      | .error e => .error e
      | .ok more => .ok (op :: more)

/-- The include loop of `BlueprintRef.resolve`: look each include name up in
the workspace blueprint registry (`KeyError` when missing), resolve it
with the supplied recursive resolver, and concatenate the resolved
operation lists in include-list order. -/
def includesFold (resolveFn : BlueprintRefData → Except RErr BlueprintData)
    (breg : List (String × BlueprintRefData)) : List String → Except RErr (List SpecOpData)
  | [] => .ok []
  | incName :: rest =>
    match alistLookup breg incName with
    | Option.none => .error (.includeKeyErr incName)
    | some incRef =>
      match resolveFn incRef with
      | .error e => .error e
      | .ok bp =>
        match includesFold resolveFn breg rest with
        | .error e => .error e
        | .ok more => .ok (bp.ops ++ more)

/-- Embedding of `BlueprintRef.resolve`: refuse names already in the
`resolving` set (circular include), push the name for the recursive
include expansion, then append the own operations after all included
ones.  The `resolving` set is passed down — its net mutation across a
successful Python call is nil, so sibling includes observe the same set
the call received.  Fuel only bounds the recursion depth for Lean;
`breg.length + 2` is always enough, since every level pushes a distinct
registry name. -/
def resolveBp : Nat → List (String × BlueprintRefData) → List String → List String →
    BlueprintRefData → Except RErr BlueprintData
  | 0, _, _, _, _ => .error .fuelExhausted
  | n + 1, breg, sreg, resolving, ref =>
    if resolving.contains ref.name then .error (.circularInclude ref.name)
    else
      match includesFold (fun r => resolveBp n breg sreg (ref.name :: resolving) r)
          breg ref.includes with
      | .error e => .error e
      | .ok incOps =>
        match resolveOps sreg ref.ops with
        | .error e => .error e
        | .ok own => .ok ⟨ref.name, incOps ++ own⟩

/-- Include expansion written after the words of the spec, for comparison
with `resolveBp`: the fully expanded operation lists of the included
blueprints, in include-list order, each with its transitive includes
expanded first. -/
def specIncludesFold (expandFn : BlueprintRefData → Except RErr (List SpecOpData))
    (breg : List (String × BlueprintRefData)) : List String → Except RErr (List SpecOpData)
  | [] => .ok []
  | incName :: rest =>
    match alistLookup breg incName with
    | Option.none => .error (.includeKeyErr incName)
    | some incRef =>
      match expandFn incRef with
      | .error e => .error e
      | .ok ops1 =>
        match specIncludesFold expandFn breg rest with
        | .error e => .error e
        | .ok more => .ok (ops1 ++ more)

/-- Specification-side definition of the resolved operation list, following
the spec sentence: all included blueprints, fully expanded, in declared
include-list order, followed by the own operations in declared order. -/
def specExpandOps : Nat → List (String × BlueprintRefData) → List String →
    BlueprintRefData → Except RErr (List SpecOpData)
  | 0, _, _, _ => .error .fuelExhausted
  | n + 1, breg, sreg, ref =>
    match specIncludesFold (fun r => specExpandOps n breg sreg r) breg ref.includes with
    | .error e => .error e
    | .ok incOps =>
      match resolveOps sreg ref.ops with
      | .error e => .error e
      | .ok own => .ok (incOps ++ own)

/-- A parsed project block as `_build_project` receives it: the `use` list,
the three strategy blocks (each a list of `spec_name: attrs` entries in
document order, grouped here by strategy as the HCL2 shape dictates), and
the remaining non-structural keys passed through to the constructor. -/
structure ProjectBlock where
  use : List String
  present : List (String × List (String × Value))
  ensure : List (String × List (String × Value))
  absent : List (String × List (String × Value))
  extra : List (String × Value)

/-- One strategy group of `_parse_ops`: decode each spec block through the
registry (`_decode_spec`, raising on unknown names) and wrap it in the
strategy class. -/
def parseStrategyOps (sreg : List String) (k : StrategyKind) :
    List (String × List (String × Value)) → Except RErr (List SpecOpData)
  | [] => .ok []
  | (specName, attrs) :: rest =>
    if sreg.contains specName then
      match parseStrategyOps sreg k rest with
      | .error e => .error e
      | .ok more => .ok (⟨k, specName, attrs⟩ :: more)
    else .error (.unknownSpec specName)

/-- Embedding of `_parse_ops`: iterate the strategy map in its fixed
insertion order — present, ensure, absent — collecting the decoded
operations of each group. -/
def parseOps (sreg : List String) (b : ProjectBlock) : Except RErr (List SpecOpData) :=
  match parseStrategyOps sreg .present b.present with
  | .error e => .error e
  | .ok ps =>
    match parseStrategyOps sreg .ensure b.ensure with
    | .error e => .error e
    | .ok es =>
      match parseStrategyOps sreg .absent b.absent with
      | .error e => .error e
      | .ok bs => .ok (ps ++ es ++ bs)

/-- Resolved `Project` as `_build_project` constructs it: name, composed
blueprint list, and the passed-through extra attributes. -/
structure ProjectData where
  name : String
  blueprints : List BlueprintData
  extra : List (String × Value)

/-- The `use` loop of `_build_project`: collect the already-resolved
blueprints named by the use list, in declared order, failing on a name
absent from the resolved-blueprint mapping. -/
def useFold (bps : List (String × BlueprintData)) (projName : String) :
    List String → Except RErr (List BlueprintData)
  | [] => .ok []
  | n :: rest =>
    match alistLookup bps n with
    | Option.none => .error (.unknownBlueprint projName n)
    | some bp =>
      match useFold bps projName rest with
      | .error e => .error e
      | .ok more => .ok (bp :: more)

/-- Embedding of `_build_project`: the used blueprints in declared order,
then — only when the parsed inline operation list is non-empty — one
synthetic blueprint named `<project>:inline` holding those operations. -/
def buildProject (sreg : List String) (name : String) (data : ProjectBlock)
    (bps : List (String × BlueprintData)) : Except RErr ProjectData :=
  match useFold bps name data.use with
  | .error e => .error e
  | .ok ubps =>
    match parseOps sreg data with
    | .error e => .error e
    | .ok inlineOps =>
      .ok ⟨name,
        ubps ++ (if inlineOps.isEmpty then [] else [⟨name ++ ":inline", inlineOps⟩]),
        data.extra⟩

/-- Unresolved project reference.  Modelled from the spec: the `ProjectRef`
class (name, ordered use list, inline operation refs, description, extra
attributes) is referenced by the repository tests but its definition is
not under the sources provided; only its data shape is taken from the
spec.  The behaviour of `Workspace.add` on it comes from the source: it
is not a `BlueprintRef`, so the isinstance test fails. -/
structure ProjectRefData where
  name : String
  use : List String
  ops : List OperationRefData
  description : String := ""
  attrs : List (String × Value) := []

/-- A workspace reference as `Workspace.add` classifies it: an operation
ref, a blueprint ref, or a project-like ref. -/
inductive WRef where
  | operation (o : OperationRefData)
  | blueprint (b : BlueprintRefData)
  | project (p : ProjectRefData)

/-- Python dict assignment `d[k] = v` on an insertion-ordered association
list: replace in place when the key exists, append otherwise. -/
def dictInsert {α : Type} : List (String × α) → String → α → List (String × α)
  | [], k, v => [(k, v)]
  | (k0, v0) :: rest, k, v =>
    if k0 = k then (k0, v) :: rest else (k0, v0) :: dictInsert rest k v

/-- The mutable registries of a `Workspace`: the two pending-block dicts
filled by `load`, and the blueprint-ref registry filled by `add`. -/
structure WorkspaceData where
  pendingBlueprints : List (String × Value)
  pendingProjects : List (String × Value)
  blueprintRefs : List (String × BlueprintRefData)

/-- Embedding of `Workspace.add`: a `BlueprintRef` is stored under its name
in the blueprint-ref registry, overwriting any existing entry; every
other reference kind falls through the isinstance test and the method
returns with no effect.  No branch raises. -/
def wsAdd (w : WorkspaceData) (r : WRef) : WorkspaceData :=
  match r with
  | .blueprint b => { w with blueprintRefs := dictInsert w.blueprintRefs b.name b }
  | _ => w

/-- Concrete live (non-dry-run) context over a trivial project type, used by
witnesses. -/
def wCtxLive : Ctx Unit := ⟨(), false⟩

/-- Concrete dry-run context over a trivial project type, used by
witnesses. -/
def wCtxDry : Ctx Unit := ⟨(), true⟩

/-- Concrete specification whose checks both return `False` and whose
mutating methods succeed, used by witnesses. -/
def wSpecFF : SpecModel Unit :=
  ⟨fun _ => .ok false, fun _ => .ok false, fun _ => .ok (), fun _ => .ok ()⟩

/-- Number of occurrences of an event in a trace. -/
def countEv (e : Event) : List Event → Nat
  | [] => 0
  | x :: rest => (if x = e then 1 else 0) + countEv e rest

lemma alistLookup_dictInsert {α : Type} (l : List (String × α)) (k : String) (v : α) :
    alistLookup (dictInsert l k v) k = some v := by
  induction l with
  | nil => simp [dictInsert, alistLookup]
  | cons hd tl ih =>
    obtain ⟨k0, v0⟩ := hd
    by_cases hk : k0 = k
    · simp [dictInsert, alistLookup, hk]
    · simp [dictInsert, alistLookup, hk, ih]

lemma dictInsert_length_of_lookup {α : Type} (l : List (String × α)) (k : String)
    (v v0 : α) (h : alistLookup l k = some v0) :
    (dictInsert l k v).length = l.length := by
  induction l with
  | nil => simp [alistLookup] at h
  | cons hd tl ih =>
    obtain ⟨k0, w0⟩ := hd
    by_cases hk : k0 = k
    · simp [dictInsert, hk]
    · simp only [alistLookup, hk, if_false, dictInsert, if_neg hk] at h ⊢
      simp [ih h]

/-- C10: `Workspace.add` never raises for any ref; a non-`BlueprintRef`
argument (operation ref or project-like ref) leaves every registry of the
workspace unchanged, and a `BlueprintRef` is stored in the blueprint-ref
registry under its name, silently replacing any existing entry with that
name rather than signalling a duplicate. -/
theorem add_silent_behavior :
    (∀ (w : WorkspaceData) (o : OperationRefData), wsAdd w (.operation o) = w)
  ∧ (∀ (w : WorkspaceData) (p : ProjectRefData), wsAdd w (.project p) = w)
  ∧ (∀ (w : WorkspaceData) (b : BlueprintRefData),
      (wsAdd w (.blueprint b)).pendingBlueprints = w.pendingBlueprints
      ∧ (wsAdd w (.blueprint b)).pendingProjects = w.pendingProjects
      ∧ alistLookup (wsAdd w (.blueprint b)).blueprintRefs b.name = some b)
  ∧ (∀ (w : WorkspaceData) (b b2 : BlueprintRefData), b2.name = b.name →
      alistLookup (wsAdd (wsAdd w (.blueprint b)) (.blueprint b2)).blueprintRefs b.name
        = some b2) := by
  refine ⟨fun w o => rfl, fun w p => rfl, fun w b => ⟨rfl, rfl, ?_⟩, fun w b b2 h => ?_⟩
  · simp [wsAdd, alistLookup_dictInsert]
  · simp [wsAdd, h, alistLookup_dictInsert]

/-- Witness for `add_silent_behavior` at a concrete workspace and two
blueprint refs sharing the name `x`. -/
theorem add_silent_behavior_witness :
    alistLookup (wsAdd (wsAdd ⟨[], [], []⟩ (.blueprint ⟨"x", [], [], ""⟩))
        (.blueprint ⟨"x", [], [], "second"⟩)).blueprintRefs "x"
      = some ⟨"x", [], [], "second"⟩ :=
  add_silent_behavior.2.2.2 ⟨[], [], []⟩ ⟨"x", [], [], ""⟩ ⟨"x", [], [], "second"⟩ rfl

/-- C4, counterexample: adding a second `BlueprintRef` named `x` to a
workspace that already holds one does not raise and does not leave the
registry unchanged — it silently replaces the entry; adding the same
project-like ref twice is a silent no-op both times.  This contradicts
the claimed duplicate-name error and the claimed unchanged registry. -/
theorem duplicate_add_counterexample :
    wsAdd (wsAdd ⟨[], [], []⟩ (.blueprint ⟨"x", [], [], ""⟩))
        (.blueprint ⟨"x", [], [], "second"⟩)
      = ⟨[], [], [("x", ⟨"x", [], [], "second"⟩)]⟩
  ∧ (wsAdd (wsAdd ⟨[], [], []⟩ (.blueprint ⟨"x", [], [], ""⟩))
        (.blueprint ⟨"x", [], [], "second"⟩)).blueprintRefs
      ≠ (wsAdd ⟨[], [], []⟩ (.blueprint ⟨"x", [], [], ""⟩)).blueprintRefs
  ∧ wsAdd (wsAdd ⟨[], [], []⟩ (.project ⟨"x", [], [], "", []⟩)) (.project ⟨"x", [], [], "", []⟩)
      = (⟨[], [], []⟩ : WorkspaceData) := by
  refine ⟨rfl, ?_, rfl⟩
  intro h
  simp [wsAdd, dictInsert] at h

/-- C4, amended: a second add under an existing blueprint name returns
normally, keeps the registry size, and replaces the stored ref; adds of
project-like refs are silent no-ops, so no duplicate-name error is ever
raised by `add` (duplicate detection lives in `Workspace.load`). -/
theorem duplicate_add_amended (w : WorkspaceData) (b b2 : BlueprintRefData)
    (h : b2.name = b.name) :
    ((wsAdd (wsAdd w (.blueprint b)) (.blueprint b2)).blueprintRefs.length
        = (wsAdd w (.blueprint b)).blueprintRefs.length)
  ∧ alistLookup (wsAdd (wsAdd w (.blueprint b)) (.blueprint b2)).blueprintRefs b.name = some b2
  ∧ (∀ p : ProjectRefData, wsAdd (wsAdd w (.project p)) (.project p) = w) := by
  refine ⟨?_, ?_, fun p => rfl⟩
  · simp only [wsAdd, h]
    exact dictInsert_length_of_lookup _ _ _ _ (alistLookup_dictInsert w.blueprintRefs b.name b)
  · simp [wsAdd, h, alistLookup_dictInsert]

/-- Witness for `duplicate_add_amended` at concrete refs named `x`. -/
theorem duplicate_add_amended_witness :
    alistLookup (wsAdd (wsAdd ⟨[], [], []⟩ (.blueprint ⟨"x", [], [], ""⟩))
        (.blueprint ⟨"x", [], [], "second"⟩)).blueprintRefs "x"
      = some ⟨"x", [], [], "second"⟩ :=
  (duplicate_add_amended ⟨[], [], []⟩ ⟨"x", [], [], ""⟩ ⟨"x", [], [], "second"⟩ rfl).2.1

lemma presentRun_checks {P : Type} (s : SpecModel P) (c : Ctx P) :
    (presentRun s c).1.filter isCheckEv = [.existsCheck] := by
  rcases he : s.existsFn c with e | b
  · simp [presentRun, he, isCheckEv]
  · cases b
    · by_cases hd : c.dry_run
      · simp [presentRun, he, hd, isCheckEv]
      · rcases ha : s.applyFn c with e2 | u <;>
          simp [presentRun, he, hd, ha, isCheckEv]
    · simp [presentRun, he, isCheckEv]

lemma ensureRun_checks {P : Type} (s : SpecModel P) (c : Ctx P) :
    (ensureRun s c).1.filter isCheckEv = [.equalsCheck] := by
  rcases he : s.equalsFn c with e | b
  · simp [ensureRun, he, isCheckEv]
  · cases b
    · by_cases hd : c.dry_run
      · simp [ensureRun, he, hd, isCheckEv]
      · rcases ha : s.applyFn c with e2 | u <;>
          simp [ensureRun, he, hd, ha, isCheckEv]
    · simp [ensureRun, he, isCheckEv]

lemma absentRun_checks {P : Type} (s : SpecModel P) (c : Ctx P) :
    (absentRun s c).1.filter isCheckEv = [.existsCheck] := by
  rcases he : s.existsFn c with e | b
  · simp [absentRun, he, isCheckEv]
  · cases b
    · simp [absentRun, he, isCheckEv]
    · by_cases hd : c.dry_run
      · simp [absentRun, he, hd, isCheckEv]
      · rcases ha : s.removeFn c with e2 | u <;>
          simp [absentRun, he, hd, ha, isCheckEv]

/-- C1: with dry-run off, `Present` calls `apply` exactly once when `exists`
returns `False` and never otherwise, `Ensure` calls `apply` exactly once
iff `equals` returns `False`, `Absent` calls `remove` exactly once iff
`exists` returns `True`, and no strategy ever calls the other mutating
method — `Present`/`Ensure` never call `remove`, `Absent` never calls
`apply`. -/
theorem strategy_semantics {P : Type} (s : SpecModel P) (ctx : Ctx P)
    (h : ctx.dry_run = false) :
    (countEv .applyCall (presentRun s ctx).1 = if isOkFalse (s.existsFn ctx) then 1 else 0)
  ∧ (countEv .removeCall (presentRun s ctx).1 = 0)
  ∧ (countEv .applyCall (ensureRun s ctx).1 = if isOkFalse (s.equalsFn ctx) then 1 else 0)
  ∧ (countEv .removeCall (ensureRun s ctx).1 = 0)
  ∧ (countEv .removeCall (absentRun s ctx).1 = if isOkTrue (s.existsFn ctx) then 1 else 0)
  ∧ (countEv .applyCall (absentRun s ctx).1 = 0) := by
  refine ⟨?_, ?_, ?_, ?_, ?_, ?_⟩
  · rcases he : s.existsFn ctx with e | b
    · simp [presentRun, he, isOkFalse, countEv]
    · cases b
      · rcases ha : s.applyFn ctx with e2 | u <;>
          simp [presentRun, he, ha, h, isOkFalse, countEv]
      · simp [presentRun, he, isOkFalse, countEv]
  · rcases he : s.existsFn ctx with e | b
    · simp [presentRun, he, countEv]
    · cases b
      · rcases ha : s.applyFn ctx with e2 | u <;>
          simp [presentRun, he, ha, h, countEv]
      · simp [presentRun, he, countEv]
  · rcases he : s.equalsFn ctx with e | b
    · simp [ensureRun, he, isOkFalse, countEv]
    · cases b
      · rcases ha : s.applyFn ctx with e2 | u <;>
          simp [ensureRun, he, ha, h, isOkFalse, countEv]
      · simp [ensureRun, he, isOkFalse, countEv]
  · rcases he : s.equalsFn ctx with e | b
    · simp [ensureRun, he, countEv]
    · cases b
      · rcases ha : s.applyFn ctx with e2 | u <;>
          simp [ensureRun, he, ha, h, countEv]
      · simp [ensureRun, he, countEv]
  · rcases he : s.existsFn ctx with e | b
    · simp [absentRun, he, isOkTrue, countEv]
    · cases b
      · simp [absentRun, he, isOkTrue, countEv]
      · rcases ha : s.removeFn ctx with e2 | u <;>
          simp [absentRun, he, ha, h, isOkTrue, countEv]
  · rcases he : s.existsFn ctx with e | b
    · simp [absentRun, he, countEv]
    · cases b
      · simp [absentRun, he, countEv]
      · rcases ha : s.removeFn ctx with e2 | u <;>
          simp [absentRun, he, ha, h, countEv]

/-- Witness for `strategy_semantics` at a concrete spec and live context. -/
theorem strategy_semantics_witness :
    countEv .applyCall (presentRun wSpecFF wCtxLive).1
      = if isOkFalse (wSpecFF.existsFn wCtxLive) then 1 else 0 :=
  (strategy_semantics wSpecFF wCtxLive rfl).1

/-- C2: with dry-run on, every strategy makes zero calls to `apply` and
`remove`; the invocation raises nothing beyond what its decision check
raises; and the decision checks run on exactly the same branches as in
the non-dry-run path. -/
theorem dry_run_suppression {P : Type} (s : SpecModel P) (ctx : Ctx P)
    (h : ctx.dry_run = true) :
    (countEv .applyCall (presentRun s ctx).1 = 0)
  ∧ (countEv .removeCall (presentRun s ctx).1 = 0)
  ∧ (countEv .applyCall (ensureRun s ctx).1 = 0)
  ∧ (countEv .removeCall (ensureRun s ctx).1 = 0)
  ∧ (countEv .applyCall (absentRun s ctx).1 = 0)
  ∧ (countEv .removeCall (absentRun s ctx).1 = 0)
  ∧ ((presentRun s ctx).2 = errPart (s.existsFn ctx))
  ∧ ((ensureRun s ctx).2 = errPart (s.equalsFn ctx))
  ∧ ((absentRun s ctx).2 = errPart (s.existsFn ctx))
  ∧ ((presentRun s ctx).1.filter isCheckEv
      = (presentRun s { ctx with dry_run := false }).1.filter isCheckEv)
  ∧ ((ensureRun s ctx).1.filter isCheckEv
      = (ensureRun s { ctx with dry_run := false }).1.filter isCheckEv)
  ∧ ((absentRun s ctx).1.filter isCheckEv
      = (absentRun s { ctx with dry_run := false }).1.filter isCheckEv) := by
  refine ⟨?_, ?_, ?_, ?_, ?_, ?_, ?_, ?_, ?_, ?_, ?_, ?_⟩
  · rcases he : s.existsFn ctx with e | b
    · simp [presentRun, he, countEv]
    · cases b <;> simp [presentRun, he, h, countEv]
  · rcases he : s.existsFn ctx with e | b
    · simp [presentRun, he, countEv]
    · cases b <;> simp [presentRun, he, h, countEv]
  · rcases he : s.equalsFn ctx with e | b
    · simp [ensureRun, he, countEv]
    · cases b <;> simp [ensureRun, he, h, countEv]
  · rcases he : s.equalsFn ctx with e | b
    · simp [ensureRun, he, countEv]
    · cases b <;> simp [ensureRun, he, h, countEv]
  · rcases he : s.existsFn ctx with e | b
    · simp [absentRun, he, countEv]
    · cases b <;> simp [absentRun, he, h, countEv]
  · rcases he : s.existsFn ctx with e | b
    · simp [absentRun, he, countEv]
    · cases b <;> simp [absentRun, he, h, countEv]
  · rcases he : s.existsFn ctx with e | b
    · simp [presentRun, he, errPart]
    · cases b <;> simp [presentRun, he, h, errPart]
  · rcases he : s.equalsFn ctx with e | b
    · simp [ensureRun, he, errPart]
    · cases b <;> simp [ensureRun, he, h, errPart]
  · rcases he : s.existsFn ctx with e | b
    · simp [absentRun, he, errPart]
    · cases b <;> simp [absentRun, he, h, errPart]
  · rw [presentRun_checks, presentRun_checks]
  · rw [ensureRun_checks, ensureRun_checks]
  · rw [absentRun_checks, absentRun_checks]

/-- Witness for `dry_run_suppression` at a concrete spec and dry-run
context. -/
theorem dry_run_suppression_witness :
    countEv .applyCall (presentRun wSpecFF wCtxDry).1 = 0 :=
  (dry_run_suppression wSpecFF wCtxDry rfl).1

lemma includesFold_to_spec (resolveFn : BlueprintRefData → Except RErr BlueprintData)
    (expandFn : BlueprintRefData → Except RErr (List SpecOpData))
    (breg : List (String × BlueprintRefData))
    (hcomp : ∀ r bp, resolveFn r = .ok bp → expandFn r = .ok bp.ops) :
    ∀ incs ops, includesFold resolveFn breg incs = .ok ops →
      specIncludesFold expandFn breg incs = .ok ops := by
  intro incs
  induction incs with
  | nil =>
    intro ops h
    simp only [includesFold] at h
    simpa [specIncludesFold] using h
  | cons incName rest ih =>
    intro ops h
    simp only [includesFold] at h
    split at h
    · simp at h
    · rename_i incRef hl
      split at h
      · simp at h
      · rename_i bp hr
        split at h
        · simp at h
        · rename_i more hrest
          simp only [Except.ok.injEq] at h
          simp only [specIncludesFold, hl, hcomp incRef bp hr, ih more hrest]
          exact congrArg Except.ok h

lemma resolveBp_spec (n : Nat) :
    ∀ (breg : List (String × BlueprintRefData)) (sreg : List String)
      (resolving : List String) (ref : BlueprintRefData) (bp : BlueprintData),
      resolveBp n breg sreg resolving ref = .ok bp →
      bp.name = ref.name ∧ specExpandOps n breg sreg ref = .ok bp.ops := by
  induction n with
  | zero =>
    intro breg sreg resolving ref bp h
    simp [resolveBp] at h
  | succ n ih =>
    intro breg sreg resolving ref bp h
    simp only [resolveBp] at h
    by_cases hc : resolving.contains ref.name
    · rw [if_pos hc] at h; simp at h
    · rw [if_neg hc] at h
      cases hinc : includesFold (fun r => resolveBp n breg sreg (ref.name :: resolving) r)
          breg ref.includes with
      | error e => rw [hinc] at h; simp at h
      | ok incOps =>
        rw [hinc] at h
        cases hops : resolveOps sreg ref.ops with
        | error e => rw [hops] at h; simp at h
        | ok own =>
          rw [hops] at h
          simp only [Except.ok.injEq] at h
          subst h
          refine ⟨rfl, ?_⟩
          have hspec :
              specIncludesFold (fun r => specExpandOps n breg sreg r) breg ref.includes
                = .ok incOps :=
            includesFold_to_spec _ _ breg
              (fun r bp2 hr => (ih breg sreg (ref.name :: resolving) r bp2 hr).2)
              ref.includes incOps hinc
          simp [specExpandOps, hspec, hops]

/-- C3: a blueprint whose name is already in the shared `resolving` set fails
with the circular-include error naming that blueprint; the mutual include
cycle `a` ↔ `b` fails when resolving `a`, naming `a` where the cycle is
detected; and an acyclic diamond — `a` includes `b` and `c`, both of
which include `d` — resolves without a false positive, because the name
pushed for a branch is popped before the sibling branch runs. -/
theorem cycle_detection :
    (∀ (n : Nat) (breg : List (String × BlueprintRefData)) (sreg : List String)
        (resolving : List String) (ref : BlueprintRefData), ref.name ∈ resolving →
        resolveBp (n + 1) breg sreg resolving ref = .error (.circularInclude ref.name))
  ∧ resolveBp 3 [("a", ⟨"a", ["b"], [], ""⟩), ("b", ⟨"b", ["a"], [], ""⟩)] [] []
      ⟨"a", ["b"], [], ""⟩ = .error (.circularInclude "a")
  ∧ resolveBp 9 [("a", ⟨"a", ["b", "c"], [], ""⟩), ("b", ⟨"b", ["d"], [], ""⟩),
        ("c", ⟨"c", ["d"], [], ""⟩), ("d", ⟨"d", [], [⟨"w", "ensure", [], Option.none⟩], ""⟩)]
      ["w"] [] ⟨"a", ["b", "c"], [], ""⟩
      = .ok ⟨"a", [⟨.ensure, "w", []⟩, ⟨.ensure, "w", []⟩]⟩ := by
  refine ⟨?_, rfl, rfl⟩
  intro n breg sreg resolving ref h
  have hc : resolving.contains ref.name = true := List.elem_eq_true_of_mem h
  simp only [resolveBp]
  rw [if_pos hc]

/-- Witness for `cycle_detection` at a concrete ref whose name is already
being resolved. -/
theorem cycle_detection_witness :
    resolveBp 1 [] [] ["a"] ⟨"a", [], [], ""⟩ = .error (.circularInclude "a") :=
  cycle_detection.1 0 [] [] ["a"] ⟨"a", [], [], ""⟩ (by simp)

/-- C7: whenever `BlueprintRef.resolve` succeeds, the resolved operation
list is exactly the specification-order expansion — each included
blueprint fully expanded, in declared include order, followed by the own
operations — and the resolved blueprint keeps the ref name; concretely, a
blueprint `derived` including `base` with one own operation resolves to
two operations with the included one first. -/
theorem include_ordering :
    (∀ (n : Nat) (breg : List (String × BlueprintRefData)) (sreg : List String)
        (resolving : List String) (ref : BlueprintRefData) (bp : BlueprintData),
        resolveBp n breg sreg resolving ref = .ok bp →
        bp.name = ref.name ∧ specExpandOps n breg sreg ref = .ok bp.ops)
  ∧ resolveBp 9 [("base", ⟨"base", [], [⟨"w", "ensure", [], Option.none⟩], ""⟩)] ["w"] []
      ⟨"derived", ["base"], [⟨"w", "present", [], Option.none⟩], ""⟩
      = .ok ⟨"derived", [⟨.ensure, "w", []⟩, ⟨.present, "w", []⟩]⟩ :=
  ⟨fun n => resolveBp_spec n, rfl⟩

/-- Witness for `include_ordering` at the concrete derived/base registry. -/
theorem include_ordering_witness :
    specExpandOps 9 [("base", ⟨"base", [], [⟨"w", "ensure", [], Option.none⟩], ""⟩)] ["w"]
      ⟨"derived", ["base"], [⟨"w", "present", [], Option.none⟩], ""⟩
      = .ok [⟨.ensure, "w", []⟩, ⟨.present, "w", []⟩] :=
  (include_ordering.1 9 [("base", ⟨"base", [], [⟨"w", "ensure", [], Option.none⟩], ""⟩)] ["w"]
    [] ⟨"derived", ["base"], [⟨"w", "present", [], Option.none⟩], ""⟩
    ⟨"derived", [⟨.ensure, "w", []⟩, ⟨.present, "w", []⟩]⟩ rfl).2

lemma mk_data (l : List Char) : (String.mk l).data = l := rfl

lemma takeWhile_append_stop {p : Char → Bool} :
    ∀ (l : List Char) (y : Char) (t : List Char), (∀ c ∈ l, p c = true) → p y = false →
      (l ++ y :: t).takeWhile p = l := by
  intro l
  induction l with
  | nil => intro y t _ hy; simp [List.takeWhile_cons, hy]
  | cons c cs ih =>
    intro y t hl hy
    have hc : p c = true := hl c (by simp)
    simp [List.takeWhile_cons, hc, ih y t (fun d hd => hl d (by simp [hd])) hy]

lemma dropWhile_append_stop {p : Char → Bool} :
    ∀ (l : List Char) (y : Char) (t : List Char), (∀ c ∈ l, p c = true) → p y = false →
      (l ++ y :: t).dropWhile p = y :: t := by
  intro l
  induction l with
  | nil => intro y t _ hy; simp [List.dropWhile_cons, hy]
  | cons c cs ih =>
    intro y t hl hy
    have hc : p c = true := hl c (by simp)
    simp [List.dropWhile_cons, hc, ih y t (fun d hd => hl d (by simp [hd])) hy]

lemma refWalk_error (ref : String) :
    ∀ (parts : List String) (v : Value) (e : VarErr),
      refWalk ref parts v = .error e → e = .undefinedVariable ref := by
  intro parts
  induction parts with
  | nil => intro v e h; simp [refWalk] at h
  | cons p rest ih =>
    intro v e h
    simp only [refWalk] at h
    split at h
    · exact ih _ _ h
    · split at h
      · exact ih _ _ h
      · simp only [Except.error.injEq] at h
        exact h.symm

/-- C9: dotted-reference resolution walks the context segment by segment,
mapping-key lookup first with attribute lookup as the fallback, and the
only error it can raise names the full dotted path attempted, never just
the failing segment; concretely, `a.b.c` climbs from dict keys into an
object attribute, and the failure of `a.x.y` at segment `x` is reported
as the full path `a.x.y`. -/
theorem undefined_variable_full_path :
    (∀ (context : List (String × Value)) (ref : String) (e : VarErr),
        resolveRef context ref = .error e → e = .undefinedVariable ref)
  ∧ resolveRef [("a", .dict [("b", .obj [("c", .int 7)])])] "a.b.c" = .ok (.int 7)
  ∧ resolveRef [("a", .dict [("b", .int 1)])] "a.x.y"
      = .error (.undefinedVariable "a.x.y") := by
  refine ⟨?_, rfl, rfl⟩
  intro context ref e h
  simp only [resolveRef] at h
  split at h
  · rename_i e2 hw
    simp only [Except.error.injEq] at h
    subst h
    exact refWalk_error ref _ _ _ hw
  · simp at h

/-- Witness for `undefined_variable_full_path` at a concrete failing
reference. -/
theorem undefined_variable_full_path_witness :
    VarErr.undefinedVariable "a.x.y" = .undefinedVariable "a.x.y" :=
  undefined_variable_full_path.1 [("a", .dict [("b", .int 1)])] "a.x.y"
    (.undefinedVariable "a.x.y") rfl

/-- C8: whenever `_build_project` succeeds, the resulting blueprint list is
the resolved `use` blueprints in declared order followed by the synthetic
`<project>:inline` blueprint exactly when the parsed inline operation
list is non-empty; a project without inline operations gets exactly its
`use` blueprints. -/
theorem inline_blueprint_iff :
    (∀ (sreg : List String) (name : String) (data : ProjectBlock)
        (bps : List (String × BlueprintData)) (proj : ProjectData),
        buildProject sreg name data bps = .ok proj →
        ∃ ubps inlineOps, useFold bps name data.use = .ok ubps
          ∧ parseOps sreg data = .ok inlineOps
          ∧ proj.blueprints
              = ubps ++ (if inlineOps.isEmpty then [] else [⟨name ++ ":inline", inlineOps⟩])
          ∧ (inlineOps = [] → proj.blueprints = ubps))
  ∧ buildProject ["w"] "p" ⟨["base"], [], [], [], []⟩ [("base", ⟨"base", [⟨.ensure, "w", []⟩]⟩)]
      = .ok ⟨"p", [⟨"base", [⟨.ensure, "w", []⟩]⟩], []⟩
  ∧ buildProject ["w"] "p" ⟨["base"], [], [("w", [])], [], []⟩
      [("base", ⟨"base", [⟨.ensure, "w", []⟩]⟩)]
      = .ok ⟨"p", [⟨"base", [⟨.ensure, "w", []⟩]⟩, ⟨"p:inline", [⟨.ensure, "w", []⟩]⟩], []⟩ := by
  refine ⟨?_, rfl, rfl⟩
  intro sreg name data bps proj h
  simp only [buildProject] at h
  split at h
  · simp at h
  · rename_i ubps hu
    split at h
    · simp at h
    · rename_i inlineOps hp
      simp only [Except.ok.injEq] at h
      subst h
      exact ⟨ubps, inlineOps, hu, hp, rfl, fun hi => by simp [hi]⟩

/-- Witness for `inline_blueprint_iff` at a concrete project block with one
inline ensure operation. -/
theorem inline_blueprint_iff_witness :
    ∃ ubps inlineOps,
      useFold [("base", ⟨"base", [⟨.ensure, "w", []⟩]⟩)] "p" ["base"] = .ok ubps
      ∧ parseOps ["w"] ⟨["base"], [], [("w", [])], [], []⟩ = .ok inlineOps
      ∧ (⟨"p", [⟨"base", [⟨.ensure, "w", []⟩]⟩, ⟨"p:inline", [⟨.ensure, "w", []⟩]⟩], []⟩ :
            ProjectData).blueprints
          = ubps ++ (if inlineOps.isEmpty then [] else [⟨"p" ++ ":inline", inlineOps⟩])
      ∧ (inlineOps = [] →
          (⟨"p", [⟨"base", [⟨.ensure, "w", []⟩]⟩, ⟨"p:inline", [⟨.ensure, "w", []⟩]⟩], []⟩ :
              ProjectData).blueprints = ubps) :=
  inline_blueprint_iff.1 ["w"] "p" ⟨["base"], [], [("w", [])], [], []⟩
    [("base", ⟨"base", [⟨.ensure, "w", []⟩]⟩)]
    ⟨"p", [⟨"base", [⟨.ensure, "w", []⟩]⟩, ⟨"p:inline", [⟨.ensure, "w", []⟩]⟩], []⟩ rfl

/-- C5: escape correctness of the resolver — for every reference resolver
(hence every context), `$$\x7bname\x7d` resolves to the literal
`$\x7bname\x7d`, a double-brace token `$\x7b\x7b ... \x7d\x7d` passes
through completely untouched even when the context defines the named
path, and the escaped double-brace form `$$\x7b\x7b a.b \x7d\x7d` loses
exactly one escape level, yielding the still-inert `$\x7b\x7b a.b
\x7d\x7d`. -/
theorem escape_correctness (rf : String → Except VarErr Value) :
    resolveValueF rf "$$\x7bname\x7d" = .ok (.str "$\x7bname\x7d")
  ∧ resolveValueF rf "$\x7b\x7b github.token \x7d\x7d"
      = .ok (.str "$\x7b\x7b github.token \x7d\x7d")
  ∧ resolveValueF rf "$$\x7b\x7b a.b \x7d\x7d" = .ok (.str "$\x7b\x7b a.b \x7d\x7d")
  ∧ resolveValue [("github", .dict [("token", .str "secret")])] "$\x7b\x7b github.token \x7d\x7d"
      = .ok (.str "$\x7b\x7b github.token \x7d\x7d") :=
  ⟨rfl, rfl, rfl, rfl⟩

/-- Witness for `escape_correctness` at the empty-context resolver. -/
theorem escape_correctness_witness :
    resolveValueF (resolveRef []) "$$\x7bname\x7d" = .ok (.str "$\x7bname\x7d") :=
  (escape_correctness (resolveRef [])).1

/-- C6: a string that is exactly one interpolation token resolves to the
referenced value itself, type preserved — for any resolver function the
result is exactly the resolver applied to the stripped reference text, so
integers, booleans, lists and nested mappings pass through unchanged —
while a token embedded in longer text is replaced by the string form of
its value with the surrounding text untouched. -/
theorem interpolation_round_trip :
    (∀ (rf : String → Except VarErr Value) (r : String), r.data ≠ [] →
        (∀ c ∈ r.data, c ≠ lbrace ∧ c ≠ rbrace) →
        resolveValueF rf (String.mk ('$' :: lbrace :: (r.data ++ [rbrace]))) = rf (pyStrip r))
  ∧ resolveValue [("count", .int 42)] "$\x7bcount\x7d" = .ok (.int 42)
  ∧ resolveValue [("count", .int 42)] "x=$\x7bcount\x7d" = .ok (.str "x=42")
  ∧ resolveValue [("flag", .bool true)] "$\x7bflag\x7d" = .ok (.bool true)
  ∧ resolveValue [("xs", .list [.int 1, .int 2])] "$\x7bxs\x7d" = .ok (.list [.int 1, .int 2])
  ∧ resolveValue [("m", .dict [("k", .str "v")])] "$\x7bm\x7d"
      = .ok (.dict [("k", .str "v")]) := by
  refine ⟨?_, rfl, rfl, rfl, rfl, rfl⟩
  intro rf r hne hbr
  have hp : ∀ c ∈ r.data, (fun c => c != lbrace && c != rbrace) c = true := by
    intro c hc
    obtain ⟨h1, h2⟩ := hbr c hc
    simp [h1, h2]
  have hy : (fun c => c != lbrace && c != rbrace) rbrace = false := by simp
  have hlen : 0 < r.data.length := List.length_pos.mpr hne
  have hcont : containsInterp ('$' :: lbrace :: (r.data ++ [rbrace])) = true := by
    simp [containsInterp, startsInterp]
  have hfull : fullInterpMatch ('$' :: lbrace :: (r.data ++ [rbrace]))
      = some (String.mk r.data) := by
    simp only [fullInterpMatch]
    rw [takeWhile_append_stop r.data rbrace [] hp hy,
      dropWhile_append_stop r.data rbrace [] hp hy]
    have hlen2 : ¬r.length = 0 := by
      have h3 : r.length = r.data.length := rfl
      omega
    simp [hlen, hlen2]
  simp only [resolveValueF, mk_data, resolveValueCore]
  rw [if_pos hcont, hfull]

/-- Witness for `interpolation_round_trip` at the reference text `count`
against a context binding it to the integer 42. -/
theorem interpolation_round_trip_witness :
    resolveValueF (resolveRef [("count", .int 42)])
        (String.mk ('$' :: lbrace :: ("count".data ++ [rbrace])))
      = resolveRef [("count", .int 42)] (pyStrip "count") :=
  interpolation_round_trip.1 (resolveRef [("count", .int 42)]) "count" (by decide) (by decide)
